import Mathlib

/-!
Verification of the serial leaf-wise tree learner
(src/src/treelearner/serial_tree_learner.cpp) against its specification.

The development shallowly embeds the learner's data model and operations:
floating-point statistics are modelled by exact rationals, machine integers
by Int/Nat, and collaborator components that live outside the source file
(SplitInfo comparison, FeatureHistogram leaf-output formula, HistogramPool,
the PRNG) are modelled from the specification where indicated.
-/

namespace LightGBM

/-- Split candidate record, embedding the fields of SplitInfo used by the
serial tree learner (gain modelled as an exact rational, counts as integers). -/
structure SplitInfo where
  feature : Int
  threshold : Nat
  gain : ℚ
  leftCount : Int
  rightCount : Int
  leftSumGradient : ℚ
  leftSumHessian : ℚ
  rightSumGradient : ℚ
  rightSumHessian : ℚ
  defaultLeft : Bool
deriving Repr, DecidableEq, Inhabited

/-- Modelled from the spec: the comparison SplitInfo::operator> (declared in
split_info.hpp, which is not part of the provided source file).  The spec
states a candidate replaces the best split iff it is strictly greater under
the lexicographic order (gain, −feature_index, threshold): larger gain wins,
then smaller feature index, then smaller bin threshold. -/
def splitInfoGt (a b : SplitInfo) : Bool :=
  if a.gain = b.gain then
    if a.feature = b.feature then decide (a.threshold < b.threshold)
    else decide (a.feature < b.feature)
  else decide (b.gain < a.gain)

lemma splitInfoGt_iff (a b : SplitInfo) :
    splitInfoGt a b = true ↔
      (b.gain < a.gain ∨
        (a.gain = b.gain ∧
          (a.feature < b.feature ∨
            (a.feature = b.feature ∧ a.threshold < b.threshold)))) := by
  unfold splitInfoGt
  split_ifs with h1 h2
  · simp [h1, h2]
  · simp [h1, h2]
  · simp only [decide_eq_true_eq]
    constructor
    · intro h; exact Or.inl h
    · rintro (h | ⟨he, _⟩)
      · exact h
      · exact absurd he h1

lemma splitInfoGt_irrefl (a : SplitInfo) : splitInfoGt a a = false := by
  simp [splitInfoGt]

lemma splitInfoGt_trans {a b c : SplitInfo}
    (hab : splitInfoGt a b = true) (hbc : splitInfoGt b c = true) :
    splitInfoGt a c = true := by
  rw [splitInfoGt_iff] at hab hbc ⊢
  rcases hab with h1 | ⟨hg1, h1⟩
  · rcases hbc with h2 | ⟨hg2, _⟩
    · exact Or.inl (lt_trans h2 h1)
    · exact Or.inl (hg2 ▸ h1)
  · rcases hbc with h2 | ⟨hg2, h2⟩
    · exact Or.inl (hg1 ▸ h2)
    · refine Or.inr ⟨hg1.trans hg2, ?_⟩
      rcases h1 with hf1 | ⟨hf1, ht1⟩
      · rcases h2 with hf2 | ⟨hf2, _⟩
        · exact Or.inl (lt_trans hf1 hf2)
        · exact Or.inl (lt_of_lt_of_eq hf1 hf2)
      · rcases h2 with hf2 | ⟨hf2, ht2⟩
        · exact Or.inl (lt_of_eq_of_lt hf1 hf2)
        · exact Or.inr ⟨hf1.trans hf2, lt_trans ht1 ht2⟩

lemma splitInfoGt_key_eq {a b : SplitInfo}
    (hab : splitInfoGt a b = false) (hba : splitInfoGt b a = false) :
    a.gain = b.gain ∧ a.feature = b.feature ∧ a.threshold = b.threshold := by
  have hab2 : ¬ (splitInfoGt a b = true) := by simp [hab]
  have hba2 : ¬ (splitInfoGt b a = true) := by simp [hba]
  rw [splitInfoGt_iff] at hab2 hba2
  push_neg at hab2 hba2
  obtain ⟨hg1, hrest1⟩ := hab2
  obtain ⟨hg2, hrest2⟩ := hba2
  have hg : a.gain = b.gain := le_antisymm hg1 hg2
  obtain ⟨hf1, ht1⟩ := hrest1 hg
  obtain ⟨hf2, ht2⟩ := hrest2 hg.symm
  have hf : a.feature = b.feature := le_antisymm hf2 hf1
  have ht : a.threshold = b.threshold :=
    le_antisymm (ht2 hf.symm) (ht1 hf)
  exact ⟨hg, hf, ht⟩

lemma splitInfoGt_congr_left {a b x : SplitInfo}
    (hg : a.gain = b.gain) (hf : a.feature = b.feature)
    (ht : a.threshold = b.threshold) :
    splitInfoGt a x = splitInfoGt b x := by
  simp [splitInfoGt, hg, hf, ht]

/-- Embedding of SerialTreeLearner::ComputeBestSplitForFeature: the candidate
produced by FindBestThreshold (here an input, after the real feature index is
written into it), optionally diminished by the cost-effective-boosting delta
gain, replaces the caller's best split exactly when the comparison holds;
an unused feature leaves the best split untouched. -/
def computeBestSplitForFeature (isFeatureUsed : Bool) (cegbDelta : Option ℚ)
    (newSplit best : SplitInfo) : SplitInfo :=
  if !isFeatureUsed then best
  else
    let adjusted :=
      match cegbDelta with
      | some d => { newSplit with gain := newSplit.gain - d }
      | none => newSplit
    if splitInfoGt adjusted best then adjusted else best

/-- Sequential reduction of the per-feature candidates into the per-leaf best
split, as performed by the parallel loop plus ArgMax reduction of
FindBestSplitsFromHistograms: each candidate replaces the accumulator iff it
is strictly greater under splitInfoGt. -/
def bestSplitFold (init : SplitInfo) (cands : List SplitInfo) : SplitInfo :=
  cands.foldl (fun best c => if splitInfoGt c best then c else best) init

lemma bestSplitFold_nil (init : SplitInfo) : bestSplitFold init [] = init := rfl

lemma bestSplitFold_cons (init c : SplitInfo) (cs : List SplitInfo) :
    bestSplitFold init (c :: cs) =
      bestSplitFold (if splitInfoGt c init then c else init) cs := rfl

lemma bestSplitFold_mem (init : SplitInfo) (cands : List SplitInfo) :
    bestSplitFold init cands ∈ init :: cands := by
  induction cands generalizing init with
  | nil => simp [bestSplitFold_nil]
  | cons c cs ih =>
    rw [bestSplitFold_cons]
    by_cases h : splitInfoGt c init = true
    · rw [if_pos h]
      rcases List.mem_cons.mp (ih c) with h2 | h2
      · simp [h2]
      · simp only [List.mem_cons]
        exact Or.inr (Or.inr h2)
    · rw [if_neg h]
      rcases List.mem_cons.mp (ih init) with h2 | h2
      · simp [h2]
      · simp only [List.mem_cons]
        exact Or.inr (Or.inr h2)

lemma bestSplitFold_not_beaten (init : SplitInfo) (cands : List SplitInfo) :
    ∀ c ∈ init :: cands, splitInfoGt c (bestSplitFold init cands) = false := by
  induction cands generalizing init with
  | nil =>
    intro c hc
    simp only [List.mem_cons, List.not_mem_nil, or_false] at hc
    subst hc
    simp [bestSplitFold_nil, splitInfoGt_irrefl]
  | cons d ds ih =>
    intro c hc
    simp only [List.mem_cons] at hc
    rw [bestSplitFold_cons]
    by_cases h : splitInfoGt d init = true
    · rw [if_pos h]
      rcases hc with hc | hc | hc
      · rw [hc]
        by_contra hcon
        simp only [Bool.not_eq_false] at hcon
        have hd : splitInfoGt d (bestSplitFold d ds) = false :=
          ih d d (List.mem_cons_self d ds)
        have hcontra : splitInfoGt d (bestSplitFold d ds) = true :=
          splitInfoGt_trans h hcon
        simp [hd] at hcontra
      · rw [hc]
        exact ih d d (List.mem_cons_self d ds)
      · exact ih d c (List.mem_cons_of_mem d hc)
    · rw [if_neg h]
      have h0 : splitInfoGt d init = false := by
        simpa using h
      rcases hc with hc | hc | hc
      · rw [hc]
        exact ih init init (List.mem_cons_self init ds)
      · rw [hc]
        by_contra hcon
        simp only [Bool.not_eq_false] at hcon
        by_cases h2 : splitInfoGt init d = true
        · have hcontra : splitInfoGt init (bestSplitFold init ds) = true :=
            splitInfoGt_trans h2 hcon
          have h3 : splitInfoGt init (bestSplitFold init ds) = false :=
            ih init init (List.mem_cons_self init ds)
          simp [h3] at hcontra
        · have h2f : splitInfoGt init d = false := by
            simpa using h2
          obtain ⟨hg, hf, ht⟩ := splitInfoGt_key_eq h0 h2f
          rw [splitInfoGt_congr_left hg hf ht] at hcon
          have h3 : splitInfoGt init (bestSplitFold init ds) = false :=
            ih init init (List.mem_cons_self init ds)
          simp [h3] at hcon
      · exact ih init c (List.mem_cons_of_mem init hc)

/-- C1 (amended): In ComputeBestSplitForFeature a candidate replaces the
current best split iff it is strictly greater under the lexicographic order
(gain, −feature_index, threshold) on the stored fields; consequently the
per-leaf best split obtained by reducing all evaluated candidates is one of
the evaluated records, no evaluated candidate has strictly greater gain than
it, and on equal gain the kept split has the smaller stored feature index —
the real feature index written by ComputeBestSplitForFeature, which agrees
with the inner index only when the Dataset's inner↔real mapping preserves
order — then the smaller bin threshold. -/
theorem computeBestSplitForFeature_lex_max
    (a b cand best : SplitInfo) (cands : List SplitInfo) :
    (splitInfoGt a b = true ↔
      (b.gain < a.gain ∨
        (a.gain = b.gain ∧
          (a.feature < b.feature ∨
            (a.feature = b.feature ∧ a.threshold < b.threshold))))) ∧
    (computeBestSplitForFeature true none cand best =
      if splitInfoGt cand best then cand else best) ∧
    (computeBestSplitForFeature false none cand best = best) ∧
    (bestSplitFold best cands ∈ best :: cands) ∧
    (∀ c ∈ best :: cands,
      c.gain ≤ (bestSplitFold best cands).gain ∧
      (c.gain = (bestSplitFold best cands).gain →
        (bestSplitFold best cands).feature ≤ c.feature) ∧
      (c.gain = (bestSplitFold best cands).gain →
        c.feature = (bestSplitFold best cands).feature →
        (bestSplitFold best cands).threshold ≤ c.threshold)) := by
  refine ⟨splitInfoGt_iff a b, rfl, rfl, bestSplitFold_mem best cands, ?_⟩
  intro c hc
  have h := bestSplitFold_not_beaten best cands c hc
  have h2 : ¬ (splitInfoGt c (bestSplitFold best cands) = true) := by simp [h]
  rw [splitInfoGt_iff] at h2
  push_neg at h2
  obtain ⟨hg, hrest⟩ := h2
  refine ⟨hg, ?_, ?_⟩
  · intro hge
    exact (hrest hge).1
  · intro hge hf
    exact (hrest hge).2 hf

theorem computeBestSplitForFeature_lex_max_witness :
    (splitInfoGt default default = true ↔
      ((default : SplitInfo).gain < (default : SplitInfo).gain ∨
        ((default : SplitInfo).gain = (default : SplitInfo).gain ∧
          ((default : SplitInfo).feature < (default : SplitInfo).feature ∨
            ((default : SplitInfo).feature = (default : SplitInfo).feature ∧
              (default : SplitInfo).threshold < (default : SplitInfo).threshold))))) ∧
    (computeBestSplitForFeature true none default default =
      if splitInfoGt default default then default else default) ∧
    (computeBestSplitForFeature false none default default = default) ∧
    (bestSplitFold default [] ∈ [(default : SplitInfo)]) ∧
    (∀ c ∈ [(default : SplitInfo)],
      c.gain ≤ (bestSplitFold default []).gain ∧
      (c.gain = (bestSplitFold default []).gain →
        (bestSplitFold default []).feature ≤ c.feature) ∧
      (c.gain = (bestSplitFold default []).gain →
        c.feature = (bestSplitFold default []).feature →
        (bestSplitFold default []).threshold ≤ c.threshold)) :=
  computeBestSplitForFeature_lex_max default default default default []

/-- C1 (counterexample): ComputeBestSplitForFeature writes the REAL feature
index into the candidate (new_split.feature = real_fidx), and the comparison
breaks gain ties on that stored index.  With an injective inner↔real mapping
that inverts order — here inner 0 ↦ real 5 and inner 1 ↦ real 3 — two
candidates of equal gain and equal threshold are reduced to the one with the
smaller REAL index, whose INNER index is the larger, contradicting the
claim that on equal gain the split on the smaller inner feature index is
kept. -/
theorem computeBestSplitForFeature_inner_tiebreak_cex :
    (let c0 : SplitInfo :=
      { feature := 5, threshold := 1, gain := 4, leftCount := 1,
        rightCount := 1, leftSumGradient := 0, leftSumHessian := 0,
        rightSumGradient := 0, rightSumHessian := 0, defaultLeft := true }
    let c1 : SplitInfo :=
      { feature := 3, threshold := 1, gain := 4, leftCount := 1,
        rightCount := 1, leftSumGradient := 0, leftSumHessian := 0,
        rightSumGradient := 0, rightSumHessian := 0, defaultLeft := true }
    let innerOf : Int → Nat := fun r => if r = 5 then 0 else 1
    c0.gain = c1.gain ∧ c0.threshold = c1.threshold ∧
    innerOf c0.feature < innerOf c1.feature ∧
    bestSplitFold c0 [c1] = c1 ∧
    innerOf (bestSplitFold c0 [c1]).feature = 1) := by
  refine ⟨rfl, rfl, by decide, ?_, ?_⟩ <;> decide

/-- Embedding of the child-designation step at the end of
SerialTreeLearner::Split: after a split is applied, the smaller-leaf split
state is initialised from the left child exactly when
left_count < right_count, otherwise from the right child; the other child
becomes the larger leaf.  Result is (smaller leaf id, larger leaf id). -/
def splitChildDesignation (leftLeaf rightLeaf : Nat) (leftCount rightCount : Int) :
    Nat × Nat :=
  if leftCount < rightCount then (leftLeaf, rightLeaf) else (rightLeaf, leftLeaf)

/-- Embedding of the identical designation step in SerialTreeLearner::ForceSplits,
which additionally records the left_smaller flag used when scoring the next
template children.  Result is ((smaller, larger), left_smaller). -/
def forceSplitsChildDesignation (leftLeaf rightLeaf : Nat) (leftCount rightCount : Int) :
    (Nat × Nat) × Bool :=
  if leftCount < rightCount then ((leftLeaf, rightLeaf), true)
  else ((rightLeaf, leftLeaf), false)

/-- C9: When a committed split produces children with left_count ≥ right_count
(in particular on equal counts), both Split and ForceSplits designate the
newly created right child as the smaller leaf and the left child as the
larger leaf, and ForceSplits records left_smaller = false. -/
theorem childDesignation_tie_right_smaller
    (leftLeaf rightLeaf : Nat) (leftCount rightCount : Int)
    (h : rightCount ≤ leftCount) :
    splitChildDesignation leftLeaf rightLeaf leftCount rightCount =
      (rightLeaf, leftLeaf) ∧
    forceSplitsChildDesignation leftLeaf rightLeaf leftCount rightCount =
      ((rightLeaf, leftLeaf), false) := by
  constructor
  · simp [splitChildDesignation, not_lt.mpr h]
  · simp [forceSplitsChildDesignation, not_lt.mpr h]

theorem childDesignation_tie_right_smaller_witness :
    splitChildDesignation 3 4 5 5 = (4, 3) ∧
    forceSplitsChildDesignation 3 4 5 5 = ((4, 3), false) :=
  childDesignation_tie_right_smaller 3 4 5 5 (by decide)

/-- Configuration snapshot restricted to the knobs the serial tree learner
reads.  The cegbEnabled flag is modelled from the spec: it stands for
CostEfficientGradientBoosting::IsEnable(config), whose implementation is an
external collaborator. -/
structure Config where
  numLeaves : Nat
  maxDepth : Int
  minDataInLeaf : Int
  featureFraction : ℚ
  featureFractionBynode : ℚ
  lambdaL1 : ℚ
  lambdaL2 : ℚ
  maxDeltaStep : ℚ
  histogramPoolSize : ℚ
  refitDecayRate : ℚ
  cegbEnabled : Bool
deriving Repr, DecidableEq

/-- Embedding of the pool-capacity computation shared by Init and ResetConfig:
when histogram_pool_size ≤ 0 the capacity starts at num_leaves, otherwise at
⌊pool_MiB · 2²⁰ / Σ_f bytes(f)⌋ (totalHistogramSize abstracts the byte total),
and the result is clamped to at least 2 and at most num_leaves. -/
def maxCacheSize (cfg : Config) (totalHistogramSize : Nat) : Int :=
  let raw : Int :=
    if cfg.histogramPoolSize ≤ 0 then (cfg.numLeaves : Int)
    else ⌊cfg.histogramPoolSize * 1048576 / (totalHistogramSize : ℚ)⌋
  min (max 2 raw) (cfg.numLeaves : Int)

/-- Observable state of the learner touched by ResetConfig: the retained
config snapshot, the histogram pool capacity and leaf sizing (set by
DynamicChangeSize), the length of best_split_per_leaf_, the data partition's
leaf-array sizing (set by ResetLeaves), the config the pool was last given
(by HistogramPool::ResetConfig), and a generation counter bumped each time
the cost-effective-boosting helper is rebuilt. -/
structure LearnerState where
  config : Config
  poolCapacity : Int
  poolNumLeaves : Nat
  bestSplitPerLeafSize : Nat
  partitionNumLeaves : Nat
  poolConfig : Config
  cegbGeneration : Nat
deriving Repr, DecidableEq

/-- Embedding of SerialTreeLearner::ResetConfig: only when the incoming
num_leaves differs from the current one are the pool capacity recomputed
(DynamicChangeSize), best_split_per_leaf_ resized and the partition's leaves
reset; in both branches the config snapshot is replaced, the pool's config is
updated, and the cost-effective-boosting helper is rebuilt when enabled. -/
def resetConfig (st : LearnerState) (cfg : Config) (totalHistogramSize : Nat) :
    LearnerState :=
  let st2 :=
    if st.config.numLeaves ≠ cfg.numLeaves then
      { st with
        config := cfg,
        poolCapacity := maxCacheSize cfg totalHistogramSize,
        poolNumLeaves := cfg.numLeaves,
        bestSplitPerLeafSize := cfg.numLeaves,
        partitionNumLeaves := cfg.numLeaves }
    else { st with config := cfg }
  { st2 with
    poolConfig := cfg,
    cegbGeneration :=
      if cfg.cegbEnabled then st2.cegbGeneration + 1 else st2.cegbGeneration }

/-- C10: ResetConfig with an unchanged num_leaves leaves the histogram pool
capacity and leaf sizing, the size of best_split_per_leaf_, and the data
partition's leaf arrays untouched even if other knobs changed; only the
config snapshot, the pool's config, and (when enabled) the
cost-effective-boosting state are updated. -/
theorem resetConfig_same_num_leaves_frame
    (st : LearnerState) (cfg : Config) (totalHistogramSize : Nat)
    (h : st.config.numLeaves = cfg.numLeaves) :
    (resetConfig st cfg totalHistogramSize).poolCapacity = st.poolCapacity ∧
    (resetConfig st cfg totalHistogramSize).poolNumLeaves = st.poolNumLeaves ∧
    (resetConfig st cfg totalHistogramSize).bestSplitPerLeafSize =
      st.bestSplitPerLeafSize ∧
    (resetConfig st cfg totalHistogramSize).partitionNumLeaves =
      st.partitionNumLeaves ∧
    (resetConfig st cfg totalHistogramSize).config = cfg ∧
    (resetConfig st cfg totalHistogramSize).poolConfig = cfg ∧
    (cfg.cegbEnabled = false →
      (resetConfig st cfg totalHistogramSize).cegbGeneration =
        st.cegbGeneration) := by
  refine ⟨?_, ?_, ?_, ?_, ?_, ?_, fun hce => ?_⟩ <;> simp [resetConfig, h, *]

theorem resetConfig_same_num_leaves_frame_witness :
    (let st : LearnerState :=
      { config :=
          { numLeaves := 31, maxDepth := -1, minDataInLeaf := 20,
            featureFraction := 1, featureFractionBynode := 1,
            lambdaL1 := 0, lambdaL2 := 0, maxDeltaStep := 0,
            histogramPoolSize := -1, refitDecayRate := 9/10,
            cegbEnabled := false },
        poolCapacity := 31, poolNumLeaves := 31, bestSplitPerLeafSize := 31,
        partitionNumLeaves := 31,
        poolConfig :=
          { numLeaves := 31, maxDepth := -1, minDataInLeaf := 20,
            featureFraction := 1, featureFractionBynode := 1,
            lambdaL1 := 0, lambdaL2 := 0, maxDeltaStep := 0,
            histogramPoolSize := -1, refitDecayRate := 9/10,
            cegbEnabled := false },
        cegbGeneration := 0 }
    let cfg : Config :=
      { numLeaves := 31, maxDepth := 7, minDataInLeaf := 5,
        featureFraction := 1/2, featureFractionBynode := 1,
        lambdaL1 := 1, lambdaL2 := 2, maxDeltaStep := 0,
        histogramPoolSize := 64, refitDecayRate := 9/10,
        cegbEnabled := false }
    (resetConfig st cfg 4096).poolCapacity = st.poolCapacity ∧
    (resetConfig st cfg 4096).poolNumLeaves = st.poolNumLeaves ∧
    (resetConfig st cfg 4096).bestSplitPerLeafSize = st.bestSplitPerLeafSize ∧
    (resetConfig st cfg 4096).partitionNumLeaves = st.partitionNumLeaves ∧
    (resetConfig st cfg 4096).config = cfg ∧
    (resetConfig st cfg 4096).poolConfig = cfg ∧
    (cfg.cegbEnabled = false →
      (resetConfig st cfg 4096).cegbGeneration = st.cegbGeneration)) :=
  resetConfig_same_num_leaves_frame _ _ 4096 rfl

/-- Modelled from the spec: the sentinel gain −∞ (kMinScore, declared outside
the provided source) marking a leaf's best split as "no viable split"; the
development only relies on it being nonpositive and thus never selected. -/
def kMinScore : ℚ := -(2 ^ 1024)

lemma kMinScore_nonpos : kMinScore ≤ 0 := by
  have h : (0 : ℚ) ≤ 2 ^ 1024 := by positivity
  unfold kMinScore
  linarith

/-- Modelled from the spec: the HistogramPool bookkeeping (its implementation
is an external collaborator).  Only what the learner observes is modelled:
the list of leaf ids with live histogram bindings, most recently used first
and bounded by the capacity.  Get reports whether the leaf was already
resident (a cache hit) and binds it, evicting the least recently used entry
when the pool is full; Move rebinds the histograms keyed by src to dst
without rebuilding them. -/
structure HistogramPool where
  resident : List Nat
  capacity : Nat
deriving Repr, DecidableEq

def HistogramPool.get (p : HistogramPool) (leaf : Nat) : Bool × HistogramPool :=
  if leaf ∈ p.resident then
    (true, { p with resident := leaf :: p.resident.erase leaf })
  else if p.resident.length < p.capacity then
    (false, { p with resident := leaf :: p.resident })
  else
    (false, { p with resident := leaf :: p.resident.dropLast })

def HistogramPool.move (p : HistogramPool) (src dst : Nat) : HistogramPool :=
  { p with resident := p.resident.map (fun x => if x = src then dst else x) }

/-- Embedding of the gain pinning performed when BeforeFindBestSplit rejects a
leaf pair: the left leaf's best-split gain is set to kMinScore, and the right
leaf's as well when right_leaf ≥ 0. -/
def pinGains (gains : Nat → ℚ) (left : Nat) (right : Int) : Nat → ℚ :=
  fun leaf =>
    if leaf = left ∨ (0 ≤ right ∧ (leaf : Int) = right) then kMinScore
    else gains leaf

/-- Result of BeforeFindBestSplit as observed by the caller: whether to
proceed, the updated best-split gains, the updated pool, and whether the
parent leaf's histograms were found resident (parent_leaf_histogram_array_
left non-null, which FindBestSplits turns into use_subtract). -/
structure BfbsResult where
  proceed : Bool
  gains : Nat → ℚ
  pool : HistogramPool
  parentRetained : Bool

/-- Embedding of SerialTreeLearner::BeforeFindBestSplit.  depthLeft is
tree->leaf_depth(left); cntLeft and cntRight are the
GetGlobalDataCountInLeaf values of the two leaves (0 when the leaf id is
negative).  The two gating checks pin the gains and refuse; otherwise pool
entries are assigned: at the root only the left leaf gets histograms; when
the left child is strictly smaller the parent entry (keyed by left, found or
not) is renamed to the right child and a fresh entry is fetched for left;
otherwise the parent entry stays on left and a fresh entry is fetched for
right.  parentRetained records whether the parent entry was a cache hit. -/
def beforeFindBestSplit (cfg : Config) (depthLeft : Int)
    (cntLeft cntRight : Int) (left : Nat) (right : Int)
    (gains : Nat → ℚ) (pool : HistogramPool) : BfbsResult :=
  if 0 < cfg.maxDepth ∧ cfg.maxDepth ≤ depthLeft then
    ⟨false, pinGains gains left right, pool, false⟩
  else if cntRight < 2 * cfg.minDataInLeaf ∧ cntLeft < 2 * cfg.minDataInLeaf then
    ⟨false, pinGains gains left right, pool, false⟩
  else if right < 0 then
    let g := pool.get left
    ⟨true, gains, g.2, false⟩
  else if cntLeft < cntRight then
    let g1 := pool.get left
    let p2 := g1.2.move left right.toNat
    let g3 := p2.get left
    ⟨true, gains, g3.2, g1.1⟩
  else
    let g1 := pool.get left
    let g2 := g1.2.get right.toNat
    ⟨true, gains, g2.2, g1.1⟩

/-- Embedding of ArrayArgs::ArgMax over best_split_per_leaf_ as used by
Train: the first index whose record is maximal under the SplitInfo
comparison. -/
def argMaxSplit (l : List SplitInfo) : Nat :=
  (List.range l.length).foldl
    (fun acc i => if splitInfoGt (l.getD i default) (l.getD acc default) then i else acc) 0

/-- Embedding of the leaf-selection step of Train's growth loop: the argmax
leaf is split only when its recorded gain is positive; otherwise the loop
stops and no leaf is selected. -/
def selectBestLeaf (bests : List SplitInfo) : Option Nat :=
  if (bests.getD (argMaxSplit bests) default).gain ≤ 0 then none
  else some (argMaxSplit bests)

lemma selectBestLeaf_not_nonpos (bests : List SplitInfo) (leaf : Nat)
    (h : (bests.getD leaf default).gain ≤ 0) :
    selectBestLeaf bests ≠ some leaf := by
  unfold selectBestLeaf
  intro hcon
  split_ifs at hcon with hgate
  have he : argMaxSplit bests = leaf := Option.some.inj hcon
  rw [he] at hgate
  exact hgate h

/-- C4: BeforeFindBestSplit returns false, pinning the left leaf's (and, when
right ≥ 0, the right leaf's) best-split gain to the −∞ sentinel, exactly when
max_depth > 0 with depth(left) ≥ max_depth, or both children have fewer than
2·min_data_in_leaf examples; when it proceeds the gains are untouched, and a
leaf whose recorded gain is the sentinel is never selected for splitting by
the growth loop. -/
theorem beforeFindBestSplit_gates
    (cfg : Config) (depthLeft : Int) (cntLeft cntRight : Int)
    (left : Nat) (right : Int) (gains : Nat → ℚ) (pool : HistogramPool)
    (bests : List SplitInfo) (leaf : Nat)
    (hpin : (bests.getD leaf default).gain = kMinScore) :
    ((beforeFindBestSplit cfg depthLeft cntLeft cntRight left right gains pool).proceed
        = false ↔
      ((0 < cfg.maxDepth ∧ cfg.maxDepth ≤ depthLeft) ∨
        (cntRight < 2 * cfg.minDataInLeaf ∧ cntLeft < 2 * cfg.minDataInLeaf))) ∧
    ((beforeFindBestSplit cfg depthLeft cntLeft cntRight left right gains pool).proceed
        = false →
      (beforeFindBestSplit cfg depthLeft cntLeft cntRight left right gains pool).gains
          left = kMinScore ∧
      (0 ≤ right →
        (beforeFindBestSplit cfg depthLeft cntLeft cntRight left right gains
            pool).gains right.toNat = kMinScore)) ∧
    ((beforeFindBestSplit cfg depthLeft cntLeft cntRight left right gains pool).proceed
        = true →
      (beforeFindBestSplit cfg depthLeft cntLeft cntRight left right gains pool).gains
        = gains) ∧
    selectBestLeaf bests ≠ some leaf := by
  refine ⟨?_, ?_, ?_, ?_⟩
  · unfold beforeFindBestSplit
    split_ifs with h1 h2 h3 h4 <;> simp [*]
  · intro hfalse
    unfold beforeFindBestSplit at hfalse ⊢
    split_ifs at hfalse ⊢ with h1 h2 h3 h4
    all_goals
      exact ⟨by simp [pinGains],
        fun hr => by simp [pinGains, hr, Int.toNat_of_nonneg hr]⟩
  · intro htrue
    unfold beforeFindBestSplit at htrue ⊢
    split_ifs at htrue ⊢ with h1 h2 h3 h4
    all_goals rfl
  · refine selectBestLeaf_not_nonpos bests leaf ?_
    rw [hpin]
    exact kMinScore_nonpos

theorem beforeFindBestSplit_gates_witness :
    (let cfg : Config :=
      { numLeaves := 31, maxDepth := 5, minDataInLeaf := 20,
        featureFraction := 1, featureFractionBynode := 1, lambdaL1 := 0,
        lambdaL2 := 0, maxDeltaStep := 0, histogramPoolSize := -1,
        refitDecayRate := 0, cegbEnabled := false }
    let bests : List SplitInfo := [{ (default : SplitInfo) with gain := kMinScore }]
    let gains : Nat → ℚ := fun _ => 0
    let pool : HistogramPool := ⟨[], 2⟩
    ((bests.getD 0 default).gain = kMinScore) ∧
    (((beforeFindBestSplit cfg 5 100 50 1 2 gains pool).proceed = false ↔
        ((0 < cfg.maxDepth ∧ cfg.maxDepth ≤ 5) ∨
          (50 < 2 * cfg.minDataInLeaf ∧ 100 < 2 * cfg.minDataInLeaf))) ∧
      ((beforeFindBestSplit cfg 5 100 50 1 2 gains pool).proceed = false →
        (beforeFindBestSplit cfg 5 100 50 1 2 gains pool).gains 1 = kMinScore ∧
        (0 ≤ (2 : Int) →
          (beforeFindBestSplit cfg 5 100 50 1 2 gains pool).gains
            (2 : Int).toNat = kMinScore)) ∧
      ((beforeFindBestSplit cfg 5 100 50 1 2 gains pool).proceed = true →
        (beforeFindBestSplit cfg 5 100 50 1 2 gains pool).gains = gains) ∧
      selectBestLeaf bests ≠ some 0)) := by
  exact ⟨rfl, beforeFindBestSplit_gates _ 5 100 50 1 2 _ _ _ 0 rfl⟩

lemma HistogramPool.get_found_iff (p : HistogramPool) (leaf : Nat) :
    (p.get leaf).1 = true ↔ leaf ∈ p.resident := by
  unfold HistogramPool.get
  split_ifs with h1 h2 <;> simp [*]

/-- Embedding of the use_subtract flag computed by FindBestSplits: the
subtract trick is used exactly when parent_leaf_histogram_array_ is non-null,
i.e. when BeforeFindBestSplit found the parent leaf's histograms resident. -/
def findBestSplitsUseSubtract (r : BfbsResult) : Bool := r.parentRetained

/-- Per-bin histogram entry: gradient sum, hessian sum and example count. -/
structure HistEntry where
  sumGradients : ℚ
  sumHessians : ℚ
  cnt : Int
deriving Repr, DecidableEq

/-- Embedding of the per-bin accumulation performed by
Dataset::ConstructHistograms for one feature of one leaf: every example
index of the leaf whose feature value falls in bin b contributes its
gradient, its hessian and one count. -/
def constructHistogram (bin : Nat → Nat) (g h : Nat → ℚ) (idxs : List Nat)
    (b : Nat) : HistEntry :=
  { sumGradients := ((idxs.filter fun i => bin i = b).map g).sum,
    sumHessians := ((idxs.filter fun i => bin i = b).map h).sum,
    cnt := ((idxs.filter fun i => bin i = b).length : Int) }

/-- Embedding of FeatureHistogram::Subtract as invoked in
FindBestSplitsFromHistograms: the smaller child's freshly built histogram is
subtracted, bin by bin, from the parent's histogram retained under the
larger child's id. -/
def subtractEntry (p s : HistEntry) : HistEntry :=
  { sumGradients := p.sumGradients - s.sumGradients,
    sumHessians := p.sumHessians - s.sumHessians,
    cnt := p.cnt - s.cnt }

lemma constructHistogram_perm (bin : Nat → Nat) (g h : Nat → ℚ)
    (idxs1 idxs2 : List Nat) (b : Nat) (hperm : idxs1.Perm idxs2) :
    constructHistogram bin g h idxs1 b = constructHistogram bin g h idxs2 b := by
  have hp := hperm.filter (fun i => decide (bin i = b))
  unfold constructHistogram
  have hg := (hp.map g).sum_eq
  have hh := (hp.map h).sum_eq
  have hl := hp.length_eq
  simp only [HistEntry.mk.injEq]
  exact ⟨hg, hh, by exact_mod_cast hl⟩

lemma constructHistogram_append (bin : Nat → Nat) (g h : Nat → ℚ)
    (l1 l2 : List Nat) (b : Nat) :
    constructHistogram bin g h (l1 ++ l2) b =
      { sumGradients := (constructHistogram bin g h l1 b).sumGradients +
          (constructHistogram bin g h l2 b).sumGradients,
        sumHessians := (constructHistogram bin g h l1 b).sumHessians +
          (constructHistogram bin g h l2 b).sumHessians,
        cnt := (constructHistogram bin g h l1 b).cnt +
          (constructHistogram bin g h l2 b).cnt } := by
  unfold constructHistogram
  simp [List.filter_append]

/-- C2: In FindBestSplits, use_subtract holds iff the parent leaf's
histograms (keyed by the left leaf id, off the root) were resident in the
pool when BeforeFindBestSplit assigned pool entries; and whenever the
parent's examples are exactly the disjoint union of the smaller and larger
children's examples, subtracting the smaller child's freshly built histogram
from the parent's retained histogram yields, bin by bin, exactly the
histogram that would be constructed from scratch over the larger child's
examples. -/
theorem useSubtract_iff_parent_resident
    (cfg : Config) (depthLeft : Int) (cntLeft cntRight : Int)
    (left : Nat) (right : Int) (gains : Nat → ℚ) (pool : HistogramPool)
    (parentIdxs smallIdxs largeIdxs : List Nat) (bin : Nat → Nat)
    (g h : Nat → ℚ) (b : Nat)
    (hproceed : (beforeFindBestSplit cfg depthLeft cntLeft cntRight left right
        gains pool).proceed = true)
    (hperm : parentIdxs.Perm (smallIdxs ++ largeIdxs)) :
    (findBestSplitsUseSubtract
        (beforeFindBestSplit cfg depthLeft cntLeft cntRight left right gains
          pool) = true ↔
      (0 ≤ right ∧ left ∈ pool.resident)) ∧
    subtractEntry (constructHistogram bin g h parentIdxs b)
        (constructHistogram bin g h smallIdxs b) =
      constructHistogram bin g h largeIdxs b := by
  constructor
  · unfold findBestSplitsUseSubtract
    unfold beforeFindBestSplit at hproceed ⊢
    split_ifs at hproceed ⊢ with h1 h2 h3 h4
    · simp only [Bool.false_eq_true, false_iff]
      rintro ⟨hr, _⟩
      exact absurd h3 (not_lt.mpr hr)
    · have hr : 0 ≤ right := not_lt.mp h3
      simp [HistogramPool.get_found_iff, hr]
    · have hr : 0 ≤ right := not_lt.mp h3
      simp [HistogramPool.get_found_iff, hr]
  · have hpe := constructHistogram_perm bin g h parentIdxs
      (smallIdxs ++ largeIdxs) b hperm
    rw [hpe, constructHistogram_append]
    unfold subtractEntry
    simp

theorem useSubtract_iff_parent_resident_witness :
    (let cfg : Config :=
      { numLeaves := 31, maxDepth := -1, minDataInLeaf := 20,
        featureFraction := 1, featureFractionBynode := 1, lambdaL1 := 0,
        lambdaL2 := 0, maxDeltaStep := 0, histogramPoolSize := -1,
        refitDecayRate := 0, cegbEnabled := false }
    let gains : Nat → ℚ := fun _ => 0
    let pool : HistogramPool := ⟨[1], 2⟩
    let bin : Nat → Nat := fun i => i % 2
    let g : Nat → ℚ := fun i => (i : ℚ)
    let h : Nat → ℚ := fun _ => 1
    ((beforeFindBestSplit cfg 1 100 50 1 2 gains pool).proceed = true) ∧
    ([0, 1, 2, 3].Perm ([2, 3] ++ [0, 1])) ∧
    ((findBestSplitsUseSubtract
        (beforeFindBestSplit cfg 1 100 50 1 2 gains pool) = true ↔
      (0 ≤ (2 : Int) ∧ 1 ∈ pool.resident)) ∧
    subtractEntry (constructHistogram bin g h [0, 1, 2, 3] 0)
        (constructHistogram bin g h [2, 3] 0) =
      constructHistogram bin g h [0, 1] 0)) := by
  refine ⟨by decide, by decide, ?_⟩
  exact useSubtract_iff_parent_resident _ 1 100 50 1 2 _ _ [0, 1, 2, 3]
    [2, 3] [0, 1] _ _ _ 0 (by decide) (by decide)

/-- Embedding of the growth loop of SerialTreeLearner::Train.  One
iteration's histogram work is abstracted into oracles: beforeOK split tells
whether BeforeFindBestSplit accepted the current leaf pair, and
bestGain split ran gives the gain of the argmax entry of
best_split_per_leaf_ at iteration split, where ran records whether
FindBestSplits actually ran (it is skipped, and the flag cleared, for the
iteration right after an aborted forced split).  When the best gain is ≤ 0
the loop warns and stops, returning the current leaf count and an
early-stop marker; otherwise the split is applied, adding one leaf. -/
def trainLoop (beforeOK : Nat → Bool) (bestGain : Nat → Bool → ℚ) :
    Nat → Nat → Nat → Bool → Nat × Bool
  | 0, _, leaves, _ => (leaves, false)
  | fuel + 1, split, leaves, aborted =>
    let ran := !aborted && beforeOK split
    if bestGain split ran ≤ 0 then (leaves, true)
    else trainLoop beforeOK bestGain fuel (split + 1) (leaves + 1) false

/-- Embedding of Train: after BeforeTrain the tree has a single leaf,
ForceSplits contributes initSplits splits (so 1 + initSplits leaves) and
possibly the aborted flag, and the loop then runs for
split = initSplits .. num_leaves − 2, i.e. with budget
num_leaves − 1 − initSplits. -/
def train (beforeOK : Nat → Bool) (bestGain : Nat → Bool → ℚ)
    (numLeaves initSplits : Nat) (aborted : Bool) : Nat × Bool :=
  trainLoop beforeOK bestGain (numLeaves - 1 - initSplits) initSplits
    (1 + initSplits) aborted

lemma trainLoop_fst_le (beforeOK : Nat → Bool) (bestGain : Nat → Bool → ℚ)
    (fuel : Nat) : ∀ split leaves aborted,
    (trainLoop beforeOK bestGain fuel split leaves aborted).1 ≤ leaves + fuel := by
  induction fuel with
  | zero => intro split leaves aborted; simp [trainLoop]
  | succ n ih =>
    intro split leaves aborted
    rw [trainLoop]
    split_ifs
    · simp
    · have h := ih (split + 1) (leaves + 1) false
      omega

lemma trainLoop_early_lt (beforeOK : Nat → Bool) (bestGain : Nat → Bool → ℚ)
    (fuel : Nat) : ∀ split leaves aborted,
    (trainLoop beforeOK bestGain fuel split leaves aborted).2 = true →
    (trainLoop beforeOK bestGain fuel split leaves aborted).1 < leaves + fuel := by
  induction fuel with
  | zero =>
    intro split leaves aborted h
    simp [trainLoop] at h
  | succ n ih =>
    intro split leaves aborted h
    rw [trainLoop] at h ⊢
    split_ifs at h ⊢
    · omega
    · have h2 := ih (split + 1) (leaves + 1) false h
      omega

/-- C3: Train applies at most num_leaves − 1 splits in total (forced plus
free growth), so the returned tree has at most num_leaves leaves; the growth
loop exits as soon as the best gain over all leaves is ≤ 0, returning the
current, possibly partially grown tree with fewer than num_leaves leaves and
only an early-stop marker (the warning), not an error. -/
theorem train_split_budget_and_early_stop
    (beforeOK : Nat → Bool) (bestGain : Nat → Bool → ℚ)
    (numLeaves initSplits : Nat) (aborted : Bool)
    (hinit : 1 + initSplits ≤ numLeaves) :
    (train beforeOK bestGain numLeaves initSplits aborted).1 ≤ numLeaves ∧
    ((train beforeOK bestGain numLeaves initSplits aborted).2 = true →
      (train beforeOK bestGain numLeaves initSplits aborted).1 < numLeaves) ∧
    (initSplits < numLeaves - 1 →
      bestGain initSplits (!aborted && beforeOK initSplits) ≤ 0 →
      train beforeOK bestGain numLeaves initSplits aborted =
        (1 + initSplits, true)) := by
  refine ⟨?_, ?_, ?_⟩
  · have h := trainLoop_fst_le beforeOK bestGain (numLeaves - 1 - initSplits)
      initSplits (1 + initSplits) aborted
    unfold train
    omega
  · intro h2
    unfold train at h2 ⊢
    have h := trainLoop_early_lt beforeOK bestGain (numLeaves - 1 - initSplits)
      initSplits (1 + initSplits) aborted h2
    omega
  · intro hlt hgain
    unfold train
    obtain ⟨k, hk⟩ : ∃ k, numLeaves - 1 - initSplits = k + 1 := ⟨numLeaves - 2 - initSplits, by omega⟩
    rw [hk, trainLoop]
    simp [hgain]

theorem train_split_budget_and_early_stop_witness :
    (let beforeOK : Nat → Bool := fun _ => true
    let bestGain : Nat → Bool → ℚ := fun _ _ => 0
    (1 + 0 ≤ 31) ∧
    ((train beforeOK bestGain 31 0 false).1 ≤ 31 ∧
    ((train beforeOK bestGain 31 0 false).2 = true →
      (train beforeOK bestGain 31 0 false).1 < 31) ∧
    (0 < 31 - 1 →
      bestGain 0 (!false && beforeOK 0) ≤ 0 →
      train beforeOK bestGain 31 0 false = (1 + 0, true)))) := by
  exact ⟨by decide,
    train_split_budget_and_early_stop (fun _ => true) (fun _ _ => 0) 31 0 false
      (by decide)⟩

/-- Forced-split template node: feature, real-valued threshold, and optional
left and right child templates (the JSON tree consumed by ForceSplits). -/
inductive ForcedNode where
  | node (feature : Int) (threshold : ℚ)
      (left : Option ForcedNode) (right : Option ForcedNode) : ForcedNode

def ForcedNode.featureOf : ForcedNode → Int
  | .node f _ _ _ => f

def ForcedNode.leftChild : ForcedNode → Option ForcedNode
  | .node _ _ l _ => l

def ForcedNode.rightChild : ForcedNode → Option ForcedNode
  | .node _ _ _ r => r

/-- Association-list embedding of the std::unordered_map forceSplitMap keyed
by leaf id. -/
def fsmErase (m : List (Nat × SplitInfo)) (k : Nat) : List (Nat × SplitInfo) :=
  m.filter fun p => !(p.1 == k)

def fsmInsert (m : List (Nat × SplitInfo)) (k : Nat) (v : SplitInfo) :
    List (Nat × SplitInfo) :=
  (k, v) :: fsmErase m k

def fsmLookup (m : List (Nat × SplitInfo)) (k : Nat) : Option SplitInfo :=
  (m.find? fun p => p.1 == k).map Prod.snd

/-- Embedding of the forced-split recording step of ForceSplits: the gathered
SplitInfo for a template child is stored in forceSplitMap under the child
leaf id, then immediately erased again when its gain is negative. -/
def recordForcedSplit (m : List (Nat × SplitInfo)) (leaf : Nat)
    (s : SplitInfo) : List (Nat × SplitInfo) :=
  let m1 := fsmInsert m leaf s
  if s.gain < 0 then fsmErase m1 leaf else m1

/-- State threaded through one BFS iteration of ForceSplits: the pending
queue of (template node, leaf id) pairs, the forceSplitMap, the current
left/right leaf ids and the template children kept in the left/right
variables for the next recording phase, the next fresh leaf id, and the
number of forced splits applied so far. -/
structure FsState where
  queue : List (ForcedNode × Nat)
  map : List (Nat × SplitInfo)
  leftLeaf : Nat
  rightLeaf : Int
  leftTemplate : Option ForcedNode
  rightTemplate : Option ForcedNode
  nextLeafId : Nat
  count : Nat

/-- Embedding of the recording phase at the top of each ForceSplits
iteration: the current left (and right) template children, if present, are
scored by GatherInfoForThreshold on the matching leaf's histograms
(abstracted into the gather oracle), have the template feature written into
the result, and are recorded (or dropped when negative). -/
def forceSplitsRecordPhase (gather : Nat → ForcedNode → SplitInfo)
    (st : FsState) : List (Nat × SplitInfo) :=
  let m1 :=
    match st.leftTemplate with
    | some ln =>
        recordForcedSplit st.map st.leftLeaf
          { gather st.leftLeaf ln with feature := ln.featureOf }
    | none => st.map
  match st.rightTemplate with
  | some rn =>
      recordForcedSplit m1 st.rightLeaf.toNat
        { gather st.rightLeaf.toNat rn with feature := rn.featureOf }
  | none => m1

/-- Embedding of the BFS loop of SerialTreeLearner::ForceSplits (histogram
construction and the split application to Tree/DataPartition are abstracted;
the gather oracle also carries the children counts the partition would
report).  Each iteration records the current template children, pops the next
queue entry, aborts when its leaf id has no recorded forced split, and
otherwise applies the split: the left child keeps the popped leaf id, the
right child receives the next fresh id, smaller/larger designation follows
forceSplitsChildDesignation, the present template children are enqueued, and
the applied-split count increases. -/
def forceSplitsLoop (gather : Nat → ForcedNode → SplitInfo) :
    Nat → FsState → Nat × Bool
  | 0, st => (st.count, false)
  | fuel + 1, st =>
    match st.queue with
    | [] => (st.count, false)
    | (node, curLeaf) :: rest =>
      let m2 := forceSplitsRecordPhase gather st
      match fsmLookup m2 curLeaf with
      | none => (st.count, true)
      | some info =>
        let newRight := st.nextLeafId
        let _ := forceSplitsChildDesignation curLeaf newRight
          info.leftCount info.rightCount
        let pushLeft :=
          match node.leftChild with
          | some l => [(l, curLeaf)]
          | none => []
        let pushRight :=
          match node.rightChild with
          | some r => [(r, newRight)]
          | none => []
        forceSplitsLoop gather fuel
          { queue := rest ++ pushLeft ++ pushRight,
            map := m2,
            leftLeaf := curLeaf,
            rightLeaf := (newRight : Int),
            leftTemplate := node.leftChild,
            rightTemplate := node.rightChild,
            nextLeafId := newRight + 1,
            count := st.count + 1 }

lemma fsmLookup_erase (m : List (Nat × SplitInfo)) (k : Nat) :
    fsmLookup (fsmErase m k) k = none := by
  unfold fsmLookup fsmErase
  rw [Option.map_eq_none', List.find?_eq_none]
  intro p hp
  have := List.of_mem_filter hp
  simpa using this

lemma recordForcedSplit_lookup (m : List (Nat × SplitInfo)) (leaf : Nat)
    (s : SplitInfo) :
    fsmLookup (recordForcedSplit m leaf s) leaf =
      (if s.gain < 0 then none else some s) := by
  unfold recordForcedSplit
  split_ifs with h
  · exact fsmLookup_erase _ leaf
  · unfold fsmLookup fsmInsert
    rw [List.find?_cons_of_pos]
    · rfl
    · simp

/-- C5: In ForceSplits, a template child whose gathered split has negative
gain is not recorded in the forced-split map (the fresh entry under its leaf
id is erased); when the next dequeued template node's leaf id has no
recorded forced split, the loop sets the aborted flag and returns the count
of forced splits applied so far; and in Train's growth loop the aborted flag
only suppresses the BeforeFindBestSplit/FindBestSplits phase of the next
iteration and is then cleared, so normal free growth resumes from the
current tree. -/
theorem forceSplits_drop_negative_and_abort
    (gather : Nat → ForcedNode → SplitInfo)
    (m : List (Nat × SplitInfo)) (leaf : Nat) (s : SplitInfo)
    (st : FsState) (fuel : Nat) (node : ForcedNode) (cur : Nat)
    (rest : List (ForcedNode × Nat))
    (beforeOK : Nat → Bool) (bestGain : Nat → Bool → ℚ)
    (split leaves : Nat)
    (hq : st.queue = (node, cur) :: rest)
    (hmiss : fsmLookup (forceSplitsRecordPhase gather st) cur = none) :
    (s.gain < 0 → fsmLookup (recordForcedSplit m leaf s) leaf = none) ∧
    (0 ≤ s.gain → fsmLookup (recordForcedSplit m leaf s) leaf = some s) ∧
    forceSplitsLoop gather (fuel + 1) st = (st.count, true) ∧
    trainLoop beforeOK bestGain (fuel + 1) split leaves true =
      (if bestGain split false ≤ 0 then (leaves, true)
       else trainLoop beforeOK bestGain fuel (split + 1) (leaves + 1) false) := by
  refine ⟨?_, ?_, ?_, ?_⟩
  · intro h
    rw [recordForcedSplit_lookup, if_pos h]
  · intro h
    rw [recordForcedSplit_lookup, if_neg (not_lt.mpr h)]
  · rw [forceSplitsLoop, hq]
    simp only [hmiss]
  · rw [trainLoop]
    simp

theorem forceSplits_drop_negative_and_abort_witness :
    (let gather : Nat → ForcedNode → SplitInfo := fun _ _ => default
    let node : ForcedNode := .node 0 0 none none
    let st : FsState :=
      { queue := [(node, 0)], map := [], leftLeaf := 0, rightLeaf := -1,
        leftTemplate := none, rightTemplate := none, nextLeafId := 1,
        count := 5 }
    let s : SplitInfo := { (default : SplitInfo) with gain := -1 }
    let beforeOK : Nat → Bool := fun _ => true
    let bestGain : Nat → Bool → ℚ := fun _ _ => 1
    (st.queue = [(node, 0)]) ∧
    (fsmLookup (forceSplitsRecordPhase gather st) 0 = none) ∧
    ((s.gain < 0 → fsmLookup (recordForcedSplit [] 7 s) 7 = none) ∧
    (0 ≤ s.gain → fsmLookup (recordForcedSplit [] 7 s) 7 = some s) ∧
    forceSplitsLoop gather (2 + 1) st = (st.count, true) ∧
    trainLoop beforeOK bestGain (2 + 1) 0 3 true =
      (if bestGain 0 false ≤ 0 then (3, true)
       else trainLoop beforeOK bestGain 2 (0 + 1) (3 + 1) false))) := by
  exact ⟨rfl, rfl,
    forceSplits_drop_negative_and_abort _ [] 7 _ _ 2 _ 0 [] _ _ 0 3 rfl rfl⟩

/-- Modelled from the spec: the small positive constant kEpsilon (declared
outside the provided source) used to floor hessian sums; value 1e-15. -/
def kEpsilon : ℚ := 1 / 10 ^ 15

lemma kEpsilon_pos : 0 < kEpsilon := by norm_num [kEpsilon]

/-- Sign of a rational, 0 at 0. -/
def signQ (s : ℚ) : ℚ := if 0 < s then 1 else if s < 0 then -1 else 0

/-- Modelled from the spec: the L1 soft threshold used in the regularised
gain and output formulas, sign(s) · max(|s| − λ₁, 0). -/
def thresholdL1 (s l1 : ℚ) : ℚ := signQ s * max 0 (|s| - l1)

/-- Modelled from the spec: FeatureHistogram::CalculateSplittedLeafOutput
(declared in feature_histogram.hpp, outside the provided source): the
optimal leaf output −ThresholdL1(G, λ₁) / (H + λ₂), clipped to
[−max_delta_step, max_delta_step] when max_delta_step > 0. -/
def calculateSplittedLeafOutput (sumGradients sumHessians l1 l2 mds : ℚ) : ℚ :=
  let ret := -thresholdL1 sumGradients l1 / (sumHessians + l2)
  if mds ≤ 0 then ret else max (-mds) (min mds ret)

/-- Gradient sum accumulated over a leaf's partition indices, as in the
FitByExistingTree loop (sum_grad starts at 0). -/
def leafSumGradients (g : Nat → ℚ) (idxs : List Nat) : ℚ := (idxs.map g).sum

/-- Hessian sum accumulated over a leaf's partition indices, as in the
FitByExistingTree loop: sum_hess starts at kEpsilon. -/
def leafSumHessians (h : Nat → ℚ) (idxs : List Nat) : ℚ :=
  kEpsilon + (idxs.map h).sum

/-- Embedding of the per-leaf body of SerialTreeLearner::FitByExistingTree:
recompute the gradient and (floored) hessian sums over the indices currently
assigned to the leaf, derive the optimal output, scale by the tree's
shrinkage, and blend with the old leaf output using refit_decay_rate. -/
def fitLeafOutput (cfg : Config) (g h : Nat → ℚ) (idxs : List Nat)
    (oldOutput shrinkage : ℚ) : ℚ :=
  let sumGrad := leafSumGradients g idxs
  let sumHess := leafSumHessians h idxs
  let output := calculateSplittedLeafOutput sumGrad sumHess cfg.lambdaL1
    cfg.lambdaL2 cfg.maxDeltaStep
  let newLeafOutput := output * shrinkage
  cfg.refitDecayRate * oldOutput + (1 - cfg.refitDecayRate) * newLeafOutput

/-- Embedding of SerialTreeLearner::FitByExistingTree over all leaves of the
copied tree: partition gives each leaf's current index slice. -/
def fitByExistingTree (cfg : Config) (g h : Nat → ℚ)
    (partition : Nat → List Nat) (oldOutputs : Nat → ℚ) (shrinkage : ℚ) :
    Nat → ℚ :=
  fun leaf => fitLeafOutput cfg g h (partition leaf) (oldOutputs leaf) shrinkage

lemma clamp_lipschitz (m a b : ℚ) :
    |max (-m) (min m a) - max (-m) (min m b)| ≤ |a - b| := by
  have h1 : |max (min m a) (-m) - max (min m b) (-m)| ≤ |min m a - min m b| :=
    abs_max_sub_max_le_abs _ _ _
  have h2 : |min m a - min m b| ≤ max |m - m| |a - b| :=
    abs_min_sub_min_le_max m a m b
  have h3 : max |m - m| |a - b| = |a - b| := by
    simp [abs_nonneg]
  rw [max_comm (-m) (min m a), max_comm (-m) (min m b)]
  rw [h3] at h2
  exact le_trans h1 h2

lemma calcOutput_eps_diff (G H l1 l2 mds : ℚ) (hA : 0 < H + l2) :
    |calculateSplittedLeafOutput G (H + kEpsilon) l1 l2 mds -
      calculateSplittedLeafOutput G H l1 l2 mds| ≤
    |thresholdL1 G l1| * kEpsilon / ((H + l2) * (H + l2 + kEpsilon)) := by
  have hB : 0 < H + l2 + kEpsilon := by
    have := kEpsilon_pos
    linarith
  have hkey : -thresholdL1 G l1 / (H + kEpsilon + l2) -
      -thresholdL1 G l1 / (H + l2) =
      thresholdL1 G l1 * kEpsilon / ((H + l2) * (H + l2 + kEpsilon)) := by
    have hA2 : H + l2 ≠ 0 := ne_of_gt hA
    have hB2 : H + l2 + kEpsilon ≠ 0 := ne_of_gt hB
    have hB3 : H + kEpsilon + l2 ≠ 0 := by
      rw [show H + kEpsilon + l2 = H + l2 + kEpsilon by ring]
      exact hB2
    field_simp
    ring
  have habs : |thresholdL1 G l1 * kEpsilon / ((H + l2) * (H + l2 + kEpsilon))| =
      |thresholdL1 G l1| * kEpsilon / ((H + l2) * (H + l2 + kEpsilon)) := by
    rw [abs_div, abs_mul]
    rw [abs_of_pos kEpsilon_pos, abs_of_pos (mul_pos hA hB)]
  unfold calculateSplittedLeafOutput
  split_ifs with hmds
  · rw [hkey] at *
    rw [← habs]
  · calc |max (-mds) (min mds (-thresholdL1 G l1 / (H + kEpsilon + l2))) -
        max (-mds) (min mds (-thresholdL1 G l1 / (H + l2)))| ≤
        |(-thresholdL1 G l1 / (H + kEpsilon + l2)) -
          (-thresholdL1 G l1 / (H + l2))| := clamp_lipschitz _ _ _
      _ = |thresholdL1 G l1| * kEpsilon / ((H + l2) * (H + l2 + kEpsilon)) := by
        rw [hkey, habs]

/-- C6: For every leaf of the tree passed to FitByExistingTree, the new leaf
output equals refit_decay_rate · old_output + (1 − refit_decay_rate) ·
shrinkage · optimal_output(sum_g, sum_h; λ₁, λ₂, max_delta_step), where the
sums are recomputed over the indices currently assigned to the leaf (the
hessian sum carrying the kEpsilon floor of C7); with refit_decay_rate = 0 the
output is exactly the shrunk optimal output of those sums, and it differs
from the output computed from the unfloored hessian sum — the value Train
records for the same partition and gradients — by at most a bound
proportional to kEpsilon. -/
theorem fitByExistingTree_output_formula
    (cfg : Config) (g h : Nat → ℚ) (partition : Nat → List Nat)
    (oldOutputs : Nat → ℚ) (shrinkage : ℚ) (leaf : Nat) :
    (∀ lf : Nat, fitByExistingTree cfg g h partition oldOutputs shrinkage lf =
      cfg.refitDecayRate * oldOutputs lf +
      (1 - cfg.refitDecayRate) * (shrinkage *
        calculateSplittedLeafOutput (leafSumGradients g (partition lf))
          (leafSumHessians h (partition lf)) cfg.lambdaL1 cfg.lambdaL2
          cfg.maxDeltaStep)) ∧
    (cfg.refitDecayRate = 0 →
      fitByExistingTree cfg g h partition oldOutputs shrinkage leaf =
        shrinkage *
          calculateSplittedLeafOutput (leafSumGradients g (partition leaf))
            (leafSumHessians h (partition leaf)) cfg.lambdaL1 cfg.lambdaL2
            cfg.maxDeltaStep) ∧
    (cfg.refitDecayRate = 0 →
      0 < ((partition leaf).map h).sum + cfg.lambdaL2 →
      |fitByExistingTree cfg g h partition oldOutputs shrinkage leaf -
        shrinkage *
          calculateSplittedLeafOutput (leafSumGradients g (partition leaf))
            (((partition leaf).map h).sum) cfg.lambdaL1 cfg.lambdaL2
            cfg.maxDeltaStep| ≤
        |shrinkage| *
          (|thresholdL1 (leafSumGradients g (partition leaf)) cfg.lambdaL1| *
            kEpsilon / ((((partition leaf).map h).sum + cfg.lambdaL2) *
              (((partition leaf).map h).sum + cfg.lambdaL2 + kEpsilon)))) := by
  have hformula : ∀ lf : Nat,
      fitByExistingTree cfg g h partition oldOutputs shrinkage lf =
        cfg.refitDecayRate * oldOutputs lf +
        (1 - cfg.refitDecayRate) * (shrinkage *
          calculateSplittedLeafOutput (leafSumGradients g (partition lf))
            (leafSumHessians h (partition lf)) cfg.lambdaL1 cfg.lambdaL2
            cfg.maxDeltaStep) := by
    intro lf
    unfold fitByExistingTree fitLeafOutput
    ring
  have hzero : cfg.refitDecayRate = 0 →
      fitByExistingTree cfg g h partition oldOutputs shrinkage leaf =
        shrinkage *
          calculateSplittedLeafOutput (leafSumGradients g (partition leaf))
            (leafSumHessians h (partition leaf)) cfg.lambdaL1 cfg.lambdaL2
            cfg.maxDeltaStep := by
    intro hdecay
    rw [hformula leaf, hdecay]
    ring
  refine ⟨hformula, hzero, ?_⟩
  intro hdecay hA
  rw [hzero hdecay]
  have hsh : leafSumHessians h (partition leaf) =
      ((partition leaf).map h).sum + kEpsilon := by
    unfold leafSumHessians
    ring
  rw [hsh]
  rw [← mul_sub]
  rw [abs_mul]
  refine mul_le_mul_of_nonneg_left ?_ (abs_nonneg shrinkage)
  exact calcOutput_eps_diff (leafSumGradients g (partition leaf))
    (((partition leaf).map h).sum) cfg.lambdaL1 cfg.lambdaL2 cfg.maxDeltaStep hA

theorem fitByExistingTree_output_formula_witness :
    (let cfgB : Config :=
      { numLeaves := 31, maxDepth := -1, minDataInLeaf := 20,
        featureFraction := 1, featureFractionBynode := 1, lambdaL1 := 0,
        lambdaL2 := 0, maxDeltaStep := 0, histogramPoolSize := -1,
        refitDecayRate := 9/10, cegbEnabled := false }
    let cfgZ : Config :=
      { numLeaves := 31, maxDepth := -1, minDataInLeaf := 20,
        featureFraction := 1, featureFractionBynode := 1, lambdaL1 := 0,
        lambdaL2 := 0, maxDeltaStep := 0, histogramPoolSize := -1,
        refitDecayRate := 0, cegbEnabled := false }
    let g : Nat → ℚ := fun i => (i : ℚ) - 1
    let h : Nat → ℚ := fun _ => 1
    let partition : Nat → List Nat := fun _ => [0, 1, 2]
    let oldOutputs : Nat → ℚ := fun _ => 2
    (∀ lf : Nat, fitByExistingTree cfgB g h partition oldOutputs 1 lf =
      cfgB.refitDecayRate * oldOutputs lf +
      (1 - cfgB.refitDecayRate) * (1 *
        calculateSplittedLeafOutput (leafSumGradients g (partition lf))
          (leafSumHessians h (partition lf)) cfgB.lambdaL1 cfgB.lambdaL2
          cfgB.maxDeltaStep)) ∧
    (cfgZ.refitDecayRate = 0) ∧
    (0 < ((partition 0).map h).sum + cfgZ.lambdaL2) ∧
    (fitByExistingTree cfgZ g h partition oldOutputs 1 0 =
      1 * calculateSplittedLeafOutput (leafSumGradients g (partition 0))
          (leafSumHessians h (partition 0)) cfgZ.lambdaL1 cfgZ.lambdaL2
          cfgZ.maxDeltaStep) ∧
    |fitByExistingTree cfgZ g h partition oldOutputs 1 0 -
      1 * calculateSplittedLeafOutput (leafSumGradients g (partition 0))
          (((partition 0).map h).sum) cfgZ.lambdaL1 cfgZ.lambdaL2
          cfgZ.maxDeltaStep| ≤
      |(1 : ℚ)| *
        (|thresholdL1 (leafSumGradients g (partition 0)) cfgZ.lambdaL1| *
          kEpsilon / ((((partition 0).map h).sum + cfgZ.lambdaL2) *
            (((partition 0).map h).sum + cfgZ.lambdaL2 + kEpsilon)))) := by
  refine ⟨?_, rfl, by norm_num, ?_, ?_⟩
  · exact (fitByExistingTree_output_formula _ _ _ _ _ 1 0).1
  · exact (fitByExistingTree_output_formula _ _ _ _ _ 1 0).2.1 rfl
  · exact (fitByExistingTree_output_formula _ _ _ _ _ 1 0).2.2 rfl (by norm_num)

/-- C7: In FitByExistingTree the hessian sum used in the leaf-output
computation starts at kEpsilon, so for every leaf — including one with zero
assigned examples — the sum passed to the output formula is at least
kEpsilon > 0 whenever the hessians are nonnegative, and the output's
denominator H + λ₂ is positive for λ₂ ≥ 0, so the division never divides by
zero. -/
theorem fitByExistingTree_hessian_floored
    (h : Nat → ℚ) (idxs : List Nat) (l2 : ℚ)
    (hh : ∀ i ∈ idxs, 0 ≤ h i) (hl2 : 0 ≤ l2) :
    kEpsilon ≤ leafSumHessians h idxs ∧
    0 < kEpsilon ∧
    leafSumHessians h [] = kEpsilon ∧
    0 < leafSumHessians h idxs + l2 := by
  have hsum : 0 ≤ (idxs.map h).sum := by
    apply List.sum_nonneg
    intro x hx
    obtain ⟨i, hi, hxi⟩ := List.mem_map.mp hx
    rw [← hxi]
    exact hh i hi
  have hfloor : kEpsilon ≤ leafSumHessians h idxs := by
    unfold leafSumHessians
    linarith
  refine ⟨hfloor, kEpsilon_pos, ?_, ?_⟩
  · unfold leafSumHessians
    simp
  · have := kEpsilon_pos
    linarith

theorem fitByExistingTree_hessian_floored_witness :
    (let h : Nat → ℚ := fun i => (i : ℚ)
    (∀ i ∈ [0, 1, 2], 0 ≤ h i) ∧ (0 ≤ (1 : ℚ)) ∧
    (kEpsilon ≤ leafSumHessians h [0, 1, 2] ∧
    0 < kEpsilon ∧
    leafSumHessians h [] = kEpsilon ∧
    0 < leafSumHessians h [0, 1, 2] + 1)) := by
  refine ⟨?_, by norm_num, ?_⟩
  · intro i hi
    simp only [Nat.cast_nonneg]
  · exact fitByExistingTree_hessian_floored _ [0, 1, 2] 1
      (fun i _ => by simp only [Nat.cast_nonneg]) (by norm_num)

/-- Modelled from the spec: the deterministic PRNG sampler Random::Sample
(an external collaborator of the learner).  Sample N K returns min(K, N)
distinct indices drawn from [0, N); any implementation satisfying this
contract may be plugged into the embedding. -/
structure Sampler where
  sample : Nat → Nat → List Nat
  length_eq : ∀ N K, (sample N K).length = min K N
  sample_nodup : ∀ N K, (sample N K).Nodup
  mem_lt : ∀ N K, ∀ x ∈ sample N K, x < N

/-- Rounding to the nearest integer, as std::round on the nonnegative
arguments produced by count · fraction. -/
def roundHalf (x : ℚ) : Int := ⌊x + 1 / 2⌋

/-- Embedding of the sampled-feature count of GetUsedFeatures: round the
population size times the fraction, then floor at min(2, |F_valid|)
(min_used_features). -/
def usedFeatureCnt (population : Nat) (frac : ℚ) (minUsedFeatures : Nat) : Nat :=
  max (roundHalf ((population : Nat) * frac)).toNat minUsedFeatures

/-- Embedding of SerialTreeLearner::GetUsedFeatures.  Arguments: the total
inner feature count, valid_feature_indices_, the Dataset's real-to-inner
index map, the two fractions, the is_tree_level flag, and the retained
used_feature_indices_ state.  The result is the list of inner feature
indices marked 1 in the returned mask, paired with the updated
used_feature_indices_.  The fast paths (fraction ≥ 1) mark every feature;
the tree-level branch samples positions into valid_feature_indices_ and
retains them; the node-level branch samples from valid_feature_indices_
directly when the tree-level sample is empty, and otherwise from the
retained tree-level subset. -/
def getUsedFeatures (sampler : Sampler) (numFeatures : Nat)
    (valid : List Nat) (innerIndex : Nat → Nat) (ffTree ffNode : ℚ)
    (isTreeLevel : Bool) (ufi : List Nat) : List Nat × List Nat :=
  if 1 ≤ ffTree ∧ isTreeLevel = true then (List.range numFeatures, ufi)
  else if 1 ≤ ffNode ∧ isTreeLevel = false then (List.range numFeatures, ufi)
  else
    let minUsedFeatures := min 2 valid.length
    if isTreeLevel = true then
      let cnt := usedFeatureCnt valid.length ffTree minUsedFeatures
      let sampled := sampler.sample valid.length cnt
      (sampled.map (fun i => innerIndex (valid.getD i 0)), sampled)
    else if ufi.length = 0 then
      let cnt := usedFeatureCnt valid.length ffNode minUsedFeatures
      let sampled := sampler.sample valid.length cnt
      (sampled.map (fun i => innerIndex (valid.getD i 0)), ufi)
    else
      let cnt := usedFeatureCnt ufi.length ffNode minUsedFeatures
      let sampled := sampler.sample ufi.length cnt
      (sampled.map (fun i => innerIndex (valid.getD (ufi.getD i 0) 0)), ufi)

lemma sampled_marked_card (sampler : Sampler) (N cnt : Nat) (f : Nat → Nat)
    (hinj : ∀ i j, i < N → j < N → f i = f j → i = j) :
    (((sampler.sample N cnt).map f).toFinset).card = min cnt N := by
  have hnodup : ((sampler.sample N cnt).map f).Nodup :=
    List.Nodup.map_on
      (fun x hx y hy hxy =>
        hinj x y (sampler.mem_lt N cnt x hx) (sampler.mem_lt N cnt y hy) hxy)
      (sampler.sample_nodup N cnt)
  rw [List.toFinset_card_of_nodup hnodup, List.length_map, sampler.length_eq]

/-- C8: For every call to GetUsedFeatures whose effective sampling fraction
is below 1 (tree level via feature_fraction, node level via
feature_fraction_bynode), the number of features sampled is at least
min(2, |F_valid|), so at least that many distinct features are marked used
in the returned mask. -/
theorem getUsedFeatures_floor
    (sampler : Sampler) (numFeatures : Nat) (valid : List Nat)
    (innerIndex : Nat → Nat) (ffTree ffNode : ℚ) (isTreeLevel : Bool)
    (ufi : List Nat)
    (htree : isTreeLevel = true → ffTree < 1)
    (hnode : isTreeLevel = false → ffNode < 1)
    (hinj : ∀ i j, i < valid.length → j < valid.length →
      innerIndex (valid.getD i 0) = innerIndex (valid.getD j 0) → i = j)
    (hufi : ufi.length ≠ 0 → (ufi.Nodup ∧ (∀ x ∈ ufi, x < valid.length) ∧
      min 2 valid.length ≤ ufi.length)) :
    min 2 valid.length ≤
      ((getUsedFeatures sampler numFeatures valid innerIndex ffTree ffNode
          isTreeLevel ufi).1).toFinset.card := by
  unfold getUsedFeatures
  split_ifs with h1 h2 h3 h4
  · exact absurd h1.1 (not_le.mpr (htree h1.2))
  · exact absurd h2.1 (not_le.mpr (hnode h2.2))
  · rw [sampled_marked_card sampler valid.length _ _ hinj]
    have hcnt := Nat.le_max_right
      (roundHalf ((valid.length : Nat) * ffTree)).toNat (min 2 valid.length)
    unfold usedFeatureCnt at *
    omega
  · rw [sampled_marked_card sampler valid.length _ _ hinj]
    have hcnt := Nat.le_max_right
      (roundHalf ((valid.length : Nat) * ffNode)).toNat (min 2 valid.length)
    unfold usedFeatureCnt at *
    omega
  · obtain ⟨hnd, hlt, hlen⟩ := hufi h4
    have hinj2 : ∀ i j, i < ufi.length → j < ufi.length →
        innerIndex (valid.getD (ufi.getD i 0) 0) =
          innerIndex (valid.getD (ufi.getD j 0) 0) → i = j := by
      intro i j hi hj heq
      have hai : ufi.getD i 0 < valid.length := by
        rw [List.getD_eq_getElem ufi 0 hi]
        exact hlt _ (List.getElem_mem hi)
      have haj : ufi.getD j 0 < valid.length := by
        rw [List.getD_eq_getElem ufi 0 hj]
        exact hlt _ (List.getElem_mem hj)
      have hab : ufi.getD i 0 = ufi.getD j 0 := hinj _ _ hai haj heq
      rw [List.getD_eq_getElem ufi 0 hi, List.getD_eq_getElem ufi 0 hj] at hab
      exact List.Nodup.getElem_inj_iff hnd |>.mp hab
    rw [sampled_marked_card sampler ufi.length _ _ hinj2]
    have hcnt := Nat.le_max_right
      (roundHalf ((ufi.length : Nat) * ffNode)).toNat (min 2 valid.length)
    unfold usedFeatureCnt at *
    omega

/-- Concrete sampler satisfying the Sample contract, used to exercise the
sampling theorems on explicit inputs. -/
def rangeSampler : Sampler where
  sample := fun N K => List.range (min K N)
  length_eq := fun N K => by simp
  sample_nodup := fun N K => List.nodup_range _
  mem_lt := fun N K x hx => by
    have h := List.mem_range.mp hx
    omega

theorem getUsedFeatures_floor_witness :
    (let valid : List Nat := [3, 5, 9]
    ((true = true → (1 : ℚ)/2 < 1) ∧
     (true = false → (1 : ℚ) < 1) ∧
     (∀ i j, i < valid.length → j < valid.length →
       (valid.getD i 0) = (valid.getD j 0) → i = j) ∧
     (([] : List Nat).length ≠ 0 → (([] : List Nat).Nodup ∧
       (∀ x ∈ ([] : List Nat), x < valid.length) ∧
       min 2 valid.length ≤ ([] : List Nat).length))) ∧
    min 2 valid.length ≤
      ((getUsedFeatures rangeSampler 10 valid (fun r => r) (1/2) 1 true
          []).1).toFinset.card) := by
  refine ⟨⟨fun _ => by norm_num, fun h => absurd h (by simp), ?_, ?_⟩, ?_⟩
  · intro i j hi hj heq
    simp only [List.length_cons, List.length_nil] at hi hj
    interval_cases i <;> interval_cases j <;> simp_all
  · intro h
    exact absurd rfl h
  · refine getUsedFeatures_floor rangeSampler 10 [3, 5, 9] (fun r => r)
      (1/2) 1 true [] (fun _ => by norm_num) (fun h => absurd h (by simp))
      ?_ (fun h => absurd rfl h)
    intro i j hi hj heq
    simp only [List.length_cons, List.length_nil] at hi hj
    interval_cases i <;> interval_cases j <;> simp_all

end LightGBM
